import Mathlib

set_option autoImplicit false

namespace AocDriver

/-! Shallow embedding of the submission-cache core of `aoc_driver`
(`src/error.rs` and `src/cache.rs`). -/

/-- Runtime error taxonomy of `error.rs` (`enum Error`). The payloads of the
`IO`, `UReq` and `Panic` variants are opaque boxed values in Rust; they are
modelled by an `Option Nat` stand-in (what matters is only that they are
carried through unchanged). The Rust variant `IO` is spelled `IOErr` here. -/
inductive Error where
  | IOErr (detail : Option Nat)
  | UReq (detail : Option Nat)
  | Incorrect
  | RateLimit (s : String)
  | Panic (detail : Option Nat)
deriving DecidableEq

/-- Serializable projection of `Error` (`enum ErrorSerializable` in
`error.rs`). The Rust variant `IO` is spelled `IOErr` here. -/
inductive ErrorSerializable where
  | IOErr
  | UReq
  | Incorrect
  | RateLimit (s : String)
  | Panic
deriving DecidableEq

/-- Projection `ErrorSerializable::from(&Error)` in `error.rs`: drops the
non-serializable payloads, keeps the rate-limit descriptor string. -/
def ErrorSerializable.fromError : Error → ErrorSerializable
  | .IOErr _ => .IOErr
  | .UReq _ => .UReq
  | .Incorrect => .Incorrect
  | .RateLimit s => .RateLimit s
  | .Panic _ => .Panic

/-- Variants of `ErrorSerializable` other than `Incorrect` and `RateLimit`:
the "any other prior failure kind" of the reconciliation algorithm. -/
def ErrorSerializable.isOtherFailure : ErrorSerializable → Bool
  | .IOErr => true
  | .UReq => true
  | .Panic => true
  | .Incorrect => false
  | .RateLimit _ => false

deriving instance DecidableEq for Except

/-- Lookup in an association list modelling a Rust `HashMap` (first matching
key; keys are kept unique, mirroring the `HashMap` invariant). -/
def lookupA {κ α : Type} [DecidableEq κ] (k : κ) : List (κ × α) → Option α
  | [] => none
  | (k', v) :: rest => if k' = k then some v else lookupA k rest

/-- Insert-or-overwrite in an association list, modelling `HashMap::insert`
and the entry API: replaces the first binding of `k` in place, else appends. -/
def insertA {κ α : Type} [DecidableEq κ] (k : κ) (v : α) : List (κ × α) → List (κ × α)
  | [] => [(k, v)]
  | (k', v') :: rest => if k' = k then (k, v) :: rest else (k', v') :: insertA k v rest

/-- Persisted record of one submission attempt (`struct Response` in
`cache.rs`). The `DateTime<Utc>` timestamp is modelled as integer nanoseconds
since the epoch (chrono datetimes have nanosecond resolution). -/
structure Response where
  submission_time : Int
  response : Except ErrorSerializable Unit
deriving DecidableEq

/-- Per-part cache record (`struct PartCache` in `cache.rs`): an optional
proven-correct answer plus one entry per answer string ever tried. The
`HashMap<String, Response>` field (serde-flattened on disk) is modelled as an
association list with unique keys. -/
structure PartCache where
  correct_answer : Option String := none
  answers : List (String × Response) := []
deriving DecidableEq

/-- Whole persisted store (`struct Cache` in `cache.rs`): map from part
identifier (`i32`, modelled as `Int`) to `PartCache`. -/
structure Cache where
  parts : List (Int × PartCache) := []
deriving DecidableEq

/-- Numeric value of an ASCII digit character. -/
def digitVal (c : Char) : Nat := c.toNat - 48

/-- Decimal reading of a digit string, as done by Rust's `str::parse`: fails
on an empty list or any non-digit character; leading zeros are accepted. -/
def digitsToNat? (cs : List Char) : Option Nat :=
  if cs.isEmpty then none
  else if cs.all Char.isDigit then
    some (cs.foldl (fun acc c => 10 * acc + digitVal c) 0)
  else none

def I64_MAX : Int := 9223372036854775807

def I64_MIN : Int := -9223372036854775808

/-- Model of Rust `str::parse::<i64>`: optional single sign character, then
one or more ASCII digits, and the value must fit in `i64`. -/
def parse_i64 : List Char → Option Int
  | '+' :: rest =>
    (digitsToNat? rest).bind fun n => if (n : Int) ≤ I64_MAX then some (n : Int) else none
  | '-' :: rest =>
    (digitsToNat? rest).bind fun n => if I64_MIN ≤ -(n : Int) then some (-(n : Int)) else none
  | cs =>
    (digitsToNat? cs).bind fun n => if (n : Int) ≤ I64_MAX then some (n : Int) else none

/-- Model of `rate_limit_str.strip_suffix('s')` on the character list. -/
def strip_suffix_s (s : String) : Option (List Char) :=
  match s.data.reverse with
  | 's' :: rest => some rest.reverse
  | _ => none

/-- Wait-descriptor parse inside `get_remaining_time`:
`strip_suffix('s').and_then(|s| s.parse::<i64>().ok())`. -/
def parse_rate_limit (s : String) : Option Int :=
  (strip_suffix_s s).bind parse_i64

/-- Nanoseconds per second. `chrono::Duration` arithmetic is modelled exactly
at nanosecond resolution. -/
def NANOS_PER_SEC : Int := 1000000000

/-- Bound of a `chrono::Duration`: its values span exactly
±`i64::MAX` milliseconds, here expressed in nanoseconds. -/
def DURATION_MAX_NANOS : Int := 9223372036854775807 * 1000000

/-- Model of `chrono::Duration::seconds`, as total nanoseconds: `none` models
the panic the constructor raises when the value lies outside the `Duration`
bound of ±`i64::MAX` milliseconds (that is, when the magnitude of `secs`
exceeds 9223372036854775). -/
def duration_seconds (secs : Int) : Option Int :=
  if -DURATION_MAX_NANOS ≤ secs * NANOS_PER_SEC ∧ secs * NANOS_PER_SEC ≤ DURATION_MAX_NANOS
  then some (secs * NANOS_PER_SEC) else none

/-- Model of `chrono::Duration::checked_sub` on total nanoseconds: `none` when
the difference overflows the `Duration` bound. -/
def duration_checked_sub (a b : Int) : Option Int :=
  if -DURATION_MAX_NANOS ≤ a - b ∧ a - b ≤ DURATION_MAX_NANOS then some (a - b)
  else none

/-- Model of `get_remaining_time` in `cache.rs`, with chrono's `Duration`
bounds. The wall clock `Utc::now()` is passed in explicitly as `now`;
timestamps are integer nanoseconds since the epoch (a difference of two
datetimes always fits in a `Duration`, so only the two `Duration` operations
of this function can fail). The outer `Option` models the `Duration::seconds`
panic — `none` means the call panics — and the inner one is the function's
`Option<i64>` result; a `checked_sub` overflow leaves `remaining_seconds` at
`None`. `Duration::num_seconds` truncates toward zero, hence `Int.tdiv`;
`i64::is_positive` keeps only a strictly positive remainder. -/
def get_remaining_time (submission_time : Int) (rate_limit_str : String) (now : Int) :
    Option (Option Int) :=
  match parse_rate_limit rate_limit_str with
  | none => some none
  | some secs =>
    match duration_seconds secs with
    | none => none
    | some ratelimit_nanos =>
      let time_since_ratelimit_response := now - submission_time
      match duration_checked_sub ratelimit_nanos time_since_ratelimit_response with
      | none => some none
      | some d =>
        let x := Int.tdiv d NANOS_PER_SEC
        some (if 0 < x then some x else none)

/-- Outcome of one run of the reconciliation core `cache_wrapper_step`: the
value returned to the caller, the in-memory store after the call, whether the
fall-through file write at the end of `cache_wrapper` is reached (`wrote`),
and how many times the `post_fn` callback was invoked (`calls`). -/
structure StepResult where
  ret : Except Error Unit
  cache : Cache
  wrote : Bool
  calls : Nat
deriving DecidableEq

/-- View taken by `full_cache.parts.entry(part).or_default()`: the part's
record, or a fresh default one if the part has no record yet. -/
def partOf (full_cache : Cache) (part : Int) : PartCache :=
  (lookupA part full_cache.parts).getD {}

/-- Translation of the callback's result into the serializable projection
(the `translated` value computed inside `post_result_and_handle_response!`). -/
def translateResponse : Except Error Unit → Except ErrorSerializable Unit
  | .ok () => .ok ()
  | .error e => .error (ErrorSerializable.fromError e)

/-- Model of the `post_result_and_handle_response!` body in `cache_wrapper`:
invoke `post_fn` (whose result is the `response` argument), on success promote
`part.correct_answer`, store the lossy serializable projection together with a
fresh `submission_time`, and hand the original `response` back. -/
def post_result_and_handle_response (pc : PartCache) (result : String)
    (response : Except Error Unit) (now : Int) : PartCache × Except Error Unit :=
  let pc' := match response with
    | .ok () => { pc with correct_answer := some result }
    | .error _ => pc
  ({ pc' with answers := insertA result ⟨now, translateResponse response⟩ pc'.answers },
    response)

/-- Core of `cache_wrapper` (`cache.rs` lines 75-138) acting on an
already-loaded store: the `parts.entry(part).or_default()` insertion, the
`correct_answer` fast path, the per-answer cache dispatch, and the fresh
submission path. The callback is called with the fixed argument `result` at
most once; `response` is the value it returns if it is called. The result is
`none` when the call panics — which happens exactly when `get_remaining_time`
panics in `Duration::seconds`; the panic propagates to the caller with no
callback invocation and no store update. -/
def cache_wrapper_step (full_cache : Cache) (part : Int) (result : String)
    (response : Except Error Unit) (now : Int) : Option StepResult :=
  let pc := partOf full_cache part
  match pc.correct_answer with
  | some known_answer =>
    if result = known_answer then
      some ({ ret := .ok (), cache := ⟨insertA part pc full_cache.parts⟩,
                wrote := false, calls := 0 })
    else
      some ({ ret := .error .Incorrect, cache := ⟨insertA part pc full_cache.parts⟩,
                wrote := false, calls := 0 })
  | none =>
    match lookupA result pc.answers with
    | some entry =>
      match entry.response with
      | .ok () =>
        let pc' := { pc with correct_answer := some result }
        some ({ ret := .ok (), cache := ⟨insertA part pc' full_cache.parts⟩,
                  wrote := true, calls := 0 })
      | .error .Incorrect =>
        some ({ ret := .error .Incorrect, cache := ⟨insertA part pc full_cache.parts⟩,
                  wrote := false, calls := 0 })
      | .error (.RateLimit time) =>
        match get_remaining_time entry.submission_time time now with
        | none => none
        | some (some remaining_seconds) =>
          some ({ ret := .error (.RateLimit (toString remaining_seconds ++ "s")),
                    cache := ⟨insertA part pc full_cache.parts⟩, wrote := false, calls := 0 })
        | some none =>
          let pcret := post_result_and_handle_response pc result response now
          some ({ ret := pcret.2, cache := ⟨insertA part pcret.1 full_cache.parts⟩,
                    wrote := true, calls := 1 })
      | .error _ =>
        let pcret := post_result_and_handle_response pc result response now
        some ({ ret := pcret.2, cache := ⟨insertA part pcret.1 full_cache.parts⟩,
                  wrote := true, calls := 1 })
    | none =>
      let pcret := post_result_and_handle_response pc result response now
      some ({ ret := pcret.2, cache := ⟨insertA part pcret.1 full_cache.parts⟩,
                wrote := true, calls := 1 })

/-- Decimal digit character for a single digit value. -/
def digitChar10 : Nat → Char
  | 0 => '0'
  | 1 => '1'
  | 2 => '2'
  | 3 => '3'
  | 4 => '4'
  | 5 => '5'
  | 6 => '6'
  | 7 => '7'
  | 8 => '8'
  | _ => '9'

/-- Decimal digits of a natural number, most significant first. Fuel-driven so
that it reduces definitionally; `natDigits` supplies enough fuel. -/
def natDigitsAux : Nat → Nat → List Char
  | 0, _ => []
  | fuel + 1, n =>
    if n < 10 then [digitChar10 n]
    else natDigitsAux fuel (n / 10) ++ [digitChar10 (n % 10)]

/-- Decimal digits of a natural number, most significant first. -/
def natDigits (n : Nat) : List Char := natDigitsAux (n + 1) n

/-- Decimal rendering of an `i32` part key, as serde_json writes it as a JSON
object key (minus sign for negatives, no leading zeros, no plus sign) — the
same text `i32`'s `Display` produces. -/
def intKeyString : Int → String
  | .ofNat m => ⟨natDigits m⟩
  | .negSucc m => ⟨'-' :: natDigits (m + 1)⟩

/-- Numeric object-key parse performed by serde_json when deserializing an
integer-keyed map: optional minus sign, then digits. The `i32` range check is
omitted (every key the serializer writes is in range). -/
def parseIntKey (s : String) : Option Int :=
  match s.data with
  | '-' :: rest => (digitsToNat? rest).map fun m => -(m : Int)
  | ds => (digitsToNat? ds).map fun m => (m : Int)

/-- Fragment of the JSON value grammar sufficient for the persisted cache
format (serde_json values appearing in serialized `Cache` trees). -/
inductive Json where
  | null
  | str (s : String)
  | num (n : Int)
  | obj (fields : List (String × Json))

/-- Externally-tagged serde serialization of `ErrorSerializable`: unit
variants become strings, `RateLimit` becomes a one-field object. -/
def serializeErrorSerializable : ErrorSerializable → Json
  | .IOErr => .str "IO"
  | .UReq => .str "UReq"
  | .Incorrect => .str "Incorrect"
  | .RateLimit s => .obj [("RateLimit", .str s)]
  | .Panic => .str "Panic"

/-- Deserialization of `ErrorSerializable` (externally tagged). -/
def deserializeErrorSerializable : Json → Option ErrorSerializable
  | .str "IO" => some .IOErr
  | .str "UReq" => some .UReq
  | .str "Incorrect" => some .Incorrect
  | .str "Panic" => some .Panic
  | .obj [("RateLimit", .str s)] => some (.RateLimit s)
  | _ => none

/-- Serde serialization of `Result<(), ErrorSerializable>`: `{"Ok": null}` or
`{"Err": ...}`. -/
def serializeResult : Except ErrorSerializable Unit → Json
  | .ok () => .obj [("Ok", .null)]
  | .error e => .obj [("Err", serializeErrorSerializable e)]

/-- Deserialization of `Result<(), ErrorSerializable>`. -/
def deserializeResult : Json → Option (Except ErrorSerializable Unit)
  | .obj [("Ok", .null)] => some (.ok ())
  | .obj [("Err", e)] => (deserializeErrorSerializable e).map .error
  | _ => none

/-- Serde serialization of `struct Response`: the timestamp (an injective
encoding standing for the RFC 3339 text chrono emits) and the projected
response, in declaration order. -/
def serializeResponse (r : Response) : Json :=
  .obj [("submission_time", .num r.submission_time), ("response", serializeResult r.response)]

/-- Field loop of the serde-derived deserializer for `struct Response`: fields
accepted in any order, duplicate fields rejected, unknown fields ignored, both
fields required. -/
def deserializeResponseFields : List (String × Json) → Option Int →
    Option (Except ErrorSerializable Unit) → Option Response
  | [], some st, some resp => some ⟨st, resp⟩
  | [], _, _ => none
  | ("submission_time", v) :: rest, st, resp =>
    match st, v with
    | some _, _ => none
    | none, .num n => deserializeResponseFields rest (some n) resp
    | none, _ => none
  | ("response", v) :: rest, st, resp =>
    match resp, deserializeResult v with
    | some _, _ => none
    | none, some r => deserializeResponseFields rest st (some r)
    | none, none => none
  | (_, _) :: rest, st, resp => deserializeResponseFields rest st resp

/-- Deserialization of `struct Response`. -/
def deserializeResponse : Json → Option Response
  | .obj fields => deserializeResponseFields fields none none
  | _ => none

/-- Serde serialization of `struct PartCache`: the `correct_answer` field is
skipped when `None` (`skip_serializing_if`), and the `answers` map is flattened
into the same object (`#[serde(flatten)]`), one key per answer string. -/
def serializePartCache (pc : PartCache) : Json :=
  .obj ((match pc.correct_answer with
    | some a => [("correct_answer", Json.str a)]
    | none => []) ++ pc.answers.map fun kv => (kv.1, serializeResponse kv.2))

/-- Field loop of the serde-derived deserializer for `struct PartCache` with
`flatten`: the key `"correct_answer"` is consumed by the named field (string
or null, duplicates rejected, missing means `None`), every other key must
parse as a `Response` and is collected into the flattened map (later
duplicates overwrite, as `HashMap` insertion does). -/
def deserializePartFields : List (String × Json) → Option (Option String) →
    List (String × Response) → Option PartCache
  | [], ca, acc => some ({ correct_answer := ca.getD none, answers := acc })
  | (k, v) :: rest, ca, acc =>
    if k = "correct_answer" then
      match ca, v with
      | some _, _ => none
      | none, .str a => deserializePartFields rest (some (some a)) acc
      | none, .null => deserializePartFields rest (some none) acc
      | none, _ => none
    else
      match deserializeResponse v with
      | some r => deserializePartFields rest ca (insertA k r acc)
      | none => none

/-- Deserialization of `struct PartCache`. -/
def deserializePartCache : Json → Option PartCache
  | .obj fields => deserializePartFields fields none []
  | _ => none

/-- Serde serialization of `struct Cache`: a single-field object holding the
integer-keyed parts map (keys rendered as decimal strings). -/
def serializeCache (c : Cache) : Json :=
  .obj [("parts", .obj (c.parts.map fun kv => (intKeyString kv.1, serializePartCache kv.2)))]

/-- Entry loop of the deserializer for the `parts` map: every key must parse
as an integer and every value as a `PartCache`. -/
def deserializePartsMap : List (String × Json) → List (Int × PartCache) →
    Option (List (Int × PartCache))
  | [], acc => some acc
  | (k, v) :: rest, acc =>
    match parseIntKey k, deserializePartCache v with
    | some n, some pc => deserializePartsMap rest (insertA n pc acc)
    | _, _ => none

/-- Field loop of the serde-derived deserializer for `struct Cache`: the one
field `parts` is required, duplicates rejected, unknown fields ignored. -/
def deserializeCacheFields : List (String × Json) → Option (List (Int × PartCache)) →
    Option Cache
  | [], some parts => some ⟨parts⟩
  | [], none => none
  | (k, v) :: rest, slot =>
    if k = "parts" then
      match slot, v with
      | some _, _ => none
      | none, .obj entries =>
        (deserializePartsMap entries []).bind fun m => deserializeCacheFields rest (some m)
      | none, _ => none
    else
      deserializeCacheFields rest slot

/-- Deserialization of `struct Cache` (serde_json::from_str on the file). -/
def deserializeCache : Json → Option Cache
  | .obj fields => deserializeCacheFields fields none
  | _ => none

/-- Load of the store at the start of `cache_wrapper` (lines 70-73):
`read_to_string(path).ok().and_then(from_str.ok()).unwrap_or_default()`. The
file is modelled as `Option Json`: `none` is a missing or unreadable file, and
text that is not a serialization of any store is a `Json` value on which
`deserializeCache` fails. -/
def loadCache (file : Option Json) : Cache :=
  (file.bind deserializeCache).getD {}

/-- Model of `cache_wrapper` in `cache.rs`. `cache_path` says whether a cache
path was configured (Rust `Option<impl AsRef<Path>>`); `file` is the content
of the file at that path. Returns the caller-visible result, the new file
content, and the number of `post_fn` invocations; `none` when the call panics
(the panic of the step propagates, leaving the file untouched). The final
best-effort overwrite (lines 140-149) runs exactly when no early return
fired. -/
def cache_wrapper (cache_path : Bool) (file : Option Json) (part : Int) (result : String)
    (response : Except Error Unit) (now : Int) :
    Option (Except Error Unit × Option Json × Nat) :=
  if cache_path then
    match cache_wrapper_step (loadCache file) part result response now with
    | none => none
    | some s =>
      some (s.ret, if s.wrote then some (serializeCache s.cache) else file, s.calls)
  else
    some (response, file, 1)

/-- Store invariant of the spec's data model: a promoted `correct_answer` is
backed by an answer entry recorded with outcome `Correct` (`Ok`). -/
def PartInv (pc : PartCache) : Prop :=
  match pc.correct_answer with
  | none => True
  | some a =>
    match lookupA a pc.answers with
    | none => False
    | some r => r.response = Except.ok ()

instance instDecidablePartInv (pc : PartCache) : Decidable (PartInv pc) :=
  match hca : pc.correct_answer with
  | none => isTrue (by simp [PartInv, hca])
  | some a =>
    match hlk : lookupA a pc.answers with
    | none => isFalse (by simp [PartInv, hca, hlk])
    | some r =>
      if h : r.response = Except.ok () then isTrue (by simp [PartInv, hca, hlk, h])
      else isFalse (by simp [PartInv, hca, hlk, h])

/-- Store invariant lifted to the whole store. -/
def CacheInv (c : Cache) : Prop :=
  ∀ kv ∈ c.parts, PartInv kv.2

instance instDecidableCacheInv (c : Cache) : Decidable (CacheInv c) :=
  inferInstanceAs (Decidable (∀ kv ∈ c.parts, PartInv kv.2))

/-- Entries are never lost across a call: every part key keeps a record, and
every answer key of every part still resolves afterwards (outcomes may be
overwritten, entries never removed). -/
def noEntryLoss (c c' : Cache) : Prop :=
  (∀ q ∈ c.parts.map Prod.fst, (lookupA q c'.parts).isSome = true) ∧
  (∀ q ∈ c.parts.map Prod.fst, ∀ a ∈ (partOf c q).answers.map Prod.fst,
    (lookupA a (partOf c' q).answers).isSome = true)

/-- Representation invariant of the association-list embedding of the two
`HashMap`s: keys are unique. -/
def KeysNodup (c : Cache) : Prop :=
  (c.parts.map Prod.fst).Nodup ∧ ∀ kv ∈ c.parts, (kv.2.answers.map Prod.fst).Nodup

/-- No answer string collides with the serialized field name
`"correct_answer"` that the serde-flattened `answers` map shares an object
with. -/
def NoReservedAnswerKey (c : Cache) : Prop :=
  ∀ kv ∈ c.parts, ∀ av ∈ kv.2.answers, av.1 ≠ "correct_answer"

instance instDecidableKeysNodup (c : Cache) : Decidable (KeysNodup c) :=
  inferInstanceAs (Decidable ((c.parts.map Prod.fst).Nodup ∧
    ∀ kv ∈ c.parts, (kv.2.answers.map Prod.fst).Nodup))

instance instDecidableNoReservedAnswerKey (c : Cache) : Decidable (NoReservedAnswerKey c) :=
  inferInstanceAs (Decidable (∀ kv ∈ c.parts, ∀ av ∈ kv.2.answers, av.1 ≠ "correct_answer"))

/-! Lemmas about the association-list map model. -/

theorem lookupA_insertA_self {κ α : Type} [DecidableEq κ] (k : κ) (v : α) (l : List (κ × α)) :
    lookupA k (insertA k v l) = some v := by
  induction l with
  | nil => simp [insertA, lookupA]
  | cons hd tl ih =>
    obtain ⟨k', v'⟩ := hd
    by_cases h : k' = k
    · subst h
      simp [insertA, lookupA]
    · simp [insertA, lookupA, h, ih]

theorem lookupA_insertA_ne {κ α : Type} [DecidableEq κ] {k k' : κ} (v : α) (l : List (κ × α))
    (h : k' ≠ k) : lookupA k' (insertA k v l) = lookupA k' l := by
  induction l with
  | nil => simp [insertA, lookupA, Ne.symm h]
  | cons hd tl ih =>
    obtain ⟨a, b⟩ := hd
    by_cases ha : a = k
    · subst ha
      simp [insertA, lookupA, Ne.symm h]
    · simp [insertA, lookupA, ha, ih]

theorem insertA_of_lookupA_eq {κ α : Type} [DecidableEq κ] {k : κ} {v : α} {l : List (κ × α)}
    (h : lookupA k l = some v) : insertA k v l = l := by
  induction l with
  | nil => simp [lookupA] at h
  | cons hd tl ih =>
    obtain ⟨a, b⟩ := hd
    by_cases ha : a = k
    · subst ha
      simp [lookupA] at h
      simp [insertA, h]
    · simp [lookupA, ha] at h
      simp [insertA, ha, ih h]

theorem insertA_of_lookupA_none {κ α : Type} [DecidableEq κ] {k : κ} (v : α) {l : List (κ × α)}
    (h : lookupA k l = none) : insertA k v l = l ++ [(k, v)] := by
  induction l with
  | nil => simp [insertA]
  | cons hd tl ih =>
    obtain ⟨a, b⟩ := hd
    by_cases ha : a = k
    · subst ha
      simp [lookupA] at h
    · simp [lookupA, ha] at h
      simp [insertA, ha, ih h]

theorem lookupA_isSome_insertA {κ α : Type} [DecidableEq κ] (k k' : κ) (v : α)
    (l : List (κ × α)) (h : (lookupA k' l).isSome) :
    (lookupA k' (insertA k v l)).isSome := by
  by_cases e : k' = k
  · subst e
    simp [lookupA_insertA_self]
  · rwa [lookupA_insertA_ne v l e]

theorem lookupA_isSome_of_mem_keys {κ α : Type} [DecidableEq κ] {k : κ} {l : List (κ × α)}
    (h : k ∈ l.map Prod.fst) : (lookupA k l).isSome = true := by
  induction l with
  | nil => simp at h
  | cons hd tl ih =>
    obtain ⟨a, b⟩ := hd
    by_cases ha : a = k
    · simp [lookupA, ha]
    · simp [List.map_cons] at h
      rcases h with h | h
      · exact absurd h.symm ha
      · simp [lookupA, ha, ih (by simpa using h)]

theorem mem_insertA {κ α : Type} [DecidableEq κ] {k : κ} {v : α} {kv : κ × α}
    {l : List (κ × α)} (h : kv ∈ insertA k v l) : kv = (k, v) ∨ kv ∈ l := by
  induction l with
  | nil => simp [insertA] at h; simp [h]
  | cons hd tl ih =>
    obtain ⟨a, b⟩ := hd
    by_cases ha : a = k
    · subst ha
      simp [insertA] at h
      rcases h with h | h
      · simp [h]
      · simp [h]
    · simp [insertA, ha] at h
      rcases h with h | h
      · simp [h]
      · rcases ih h with h' | h'
        · simp [h']
        · simp [h']

theorem lookupA_mem {κ α : Type} [DecidableEq κ] {k : κ} {v : α} {l : List (κ × α)}
    (h : lookupA k l = some v) : (k, v) ∈ l := by
  induction l with
  | nil => simp [lookupA] at h
  | cons hd tl ih =>
    obtain ⟨a, b⟩ := hd
    by_cases ha : a = k
    · subst ha
      simp [lookupA] at h
      simp [h]
    · simp [lookupA, ha] at h
      simp [ih h]

/-! Lemmas about decimal printing and parsing of part keys. -/

theorem digitChar10_isDigit (d : Nat) : (digitChar10 d).isDigit = true := by
  rcases d with _ | _ | _ | _ | _ | _ | _ | _ | _ | d <;> rfl

theorem digitVal_digitChar10 {d : Nat} (h : d < 10) : digitVal (digitChar10 d) = d := by
  interval_cases d <;> rfl

theorem natDigitsAux_spec (fuel : Nat) : ∀ n : Nat, n < fuel →
    natDigitsAux fuel n ≠ [] ∧ (natDigitsAux fuel n).all Char.isDigit = true ∧
    ∀ a : Nat, (natDigitsAux fuel n).foldl (fun acc c => 10 * acc + digitVal c) a =
      a * 10 ^ (natDigitsAux fuel n).length + n := by
  induction fuel with
  | zero => intro n h; omega
  | succ fuel ih =>
    intro n hn
    by_cases h10 : n < 10
    · refine ⟨by simp [natDigitsAux, h10], by simp [natDigitsAux, h10, digitChar10_isDigit], ?_⟩
      intro a
      simp [natDigitsAux, h10, digitVal_digitChar10 h10]
      ring
    · have hpos : 0 < n := by omega
      have hdiv : n / 10 < n := Nat.div_lt_self hpos (by omega)
      have hlt : n / 10 < fuel := by omega
      obtain ⟨hne, hall, hval⟩ := ih (n / 10) hlt
      have hshape : natDigitsAux (fuel + 1) n =
          natDigitsAux fuel (n / 10) ++ [digitChar10 (n % 10)] := by
        simp [natDigitsAux, h10]
      refine ⟨by simp [hshape], ?_, ?_⟩
      · simp [hshape, List.all_append, hall, digitChar10_isDigit]
      · intro a
        have hmod : n % 10 < 10 := Nat.mod_lt n (by omega)
        rw [hshape, List.foldl_append, hval a]
        simp [digitVal_digitChar10 hmod]
        have hdm : 10 * (n / 10) + n % 10 = n := Nat.div_add_mod n 10
        calc 10 * (a * 10 ^ (natDigitsAux fuel (n / 10)).length + n / 10) + n % 10
            = a * 10 ^ ((natDigitsAux fuel (n / 10)).length + 1) +
              (10 * (n / 10) + n % 10) := by ring
          _ = a * 10 ^ ((natDigitsAux fuel (n / 10)).length + 1) + n := by rw [hdm]

theorem digitsToNat?_natDigits (n : Nat) : digitsToNat? (natDigits n) = some n := by
  obtain ⟨hne, hall, hval⟩ := natDigitsAux_spec (n + 1) n (by omega)
  have hval0 := hval 0
  simp only [natDigits] at *
  simp [digitsToNat?, List.isEmpty_iff, hne, hall, hval0]

theorem natDigits_all_digits (n : Nat) : (natDigits n).all Char.isDigit = true :=
  (natDigitsAux_spec (n + 1) n (by omega)).2.1

theorem natDigits_ne_nil (n : Nat) : natDigits n ≠ [] :=
  (natDigitsAux_spec (n + 1) n (by omega)).1

theorem parseIntKey_intKeyString (n : Int) : parseIntKey (intKeyString n) = some n := by
  cases n with
  | ofNat m =>
    obtain ⟨c, cs, hcons⟩ := List.exists_cons_of_ne_nil (natDigits_ne_nil m)
    have hall := natDigits_all_digits m
    rw [hcons] at hall
    have hcd : c.isDigit = true := by
      simp [List.all_cons] at hall
      exact hall.1
    have hcne : c ≠ '-' := by
      intro e
      rw [e] at hcd
      simp [Char.isDigit] at hcd
    show parseIntKey ⟨natDigits m⟩ = some (Int.ofNat m)
    unfold parseIntKey
    rw [show (String.mk (natDigits m)).data = natDigits m from rfl, hcons]
    split
    · rename_i rest heq
      injection heq with h1 h2
      exact absurd h1 hcne
    · rw [← hcons, digitsToNat?_natDigits]
      rfl
  | negSucc m =>
    show parseIntKey ⟨'-' :: natDigits (m + 1)⟩ = some (Int.negSucc m)
    unfold parseIntKey
    rw [show (String.mk ('-' :: natDigits (m + 1))).data = '-' :: natDigits (m + 1) from rfl]
    split
    · rename_i rest heq
      injection heq with h1 hrest
      rw [← hrest, digitsToNat?_natDigits]
      simp [Int.negSucc_eq]
    · rename_i hno
      exact absurd rfl (hno (natDigits (m + 1)))

theorem intKeyString_injective : Function.Injective intKeyString := by
  intro a b h
  have := parseIntKey_intKeyString a
  rw [h, parseIntKey_intKeyString b] at this
  exact (Option.some.injEq .. ▸ this).symm

theorem lookupA_eq_none {κ α : Type} [DecidableEq κ] {k : κ} {l : List (κ × α)}
    (h : k ∉ l.map Prod.fst) : lookupA k l = none := by
  induction l with
  | nil => rfl
  | cons hd tl ih =>
    obtain ⟨a, b⟩ := hd
    rw [List.map_cons, List.mem_cons] at h
    push_neg at h
    simp [lookupA, Ne.symm h.1, ih h.2]

/-! Round-trip lemmas for the persisted JSON format. -/

theorem deserializeErrorSerializable_serialize (e : ErrorSerializable) :
    deserializeErrorSerializable (serializeErrorSerializable e) = some e := by
  cases e <;> rfl

theorem deserializeResult_serialize (r : Except ErrorSerializable Unit) :
    deserializeResult (serializeResult r) = some r := by
  cases r with
  | error e => cases e <;> rfl
  | ok u => cases u; rfl

theorem deserializeResponse_serialize (r : Response) :
    deserializeResponse (serializeResponse r) = some r := by
  obtain ⟨st, resp⟩ := r
  simp [serializeResponse, deserializeResponse, deserializeResponseFields,
    deserializeResult_serialize]

theorem deserializePartFields_flatten (answers : List (String × Response)) :
    ∀ (acc : List (String × Response)) (ca : Option (Option String)),
    (acc.map Prod.fst ++ answers.map Prod.fst).Nodup →
    (∀ kv ∈ answers, kv.1 ≠ "correct_answer") →
    deserializePartFields (answers.map fun kv => (kv.1, serializeResponse kv.2)) ca acc =
      some ⟨ca.getD none, acc ++ answers⟩ := by
  induction answers with
  | nil =>
    intro acc ca _ _
    simp [deserializePartFields]
  | cons hd tl ih =>
    intro acc ca h1 h2
    obtain ⟨k, r⟩ := hd
    have hk : k ≠ "correct_answer" := h2 (k, r) (by simp)
    have hdisj := (List.nodup_append.mp h1).2.2
    have hknotin : k ∉ acc.map Prod.fst := fun hmem => hdisj hmem (by simp)
    have h1' : ((acc ++ [(k, r)]).map Prod.fst ++ tl.map Prod.fst).Nodup := by
      simpa [List.append_assoc] using h1
    have h2' : ∀ kv ∈ tl, kv.1 ≠ "correct_answer" := fun kv hkv => h2 kv (by simp [hkv])
    simp only [List.map_cons, deserializePartFields, if_neg hk, deserializeResponse_serialize,
      insertA_of_lookupA_none r (lookupA_eq_none hknotin)]
    rw [ih (acc ++ [(k, r)]) ca h1' h2']
    simp

theorem deserializePartCache_serialize (pc : PartCache)
    (h1 : (pc.answers.map Prod.fst).Nodup)
    (h2 : ∀ kv ∈ pc.answers, kv.1 ≠ "correct_answer") :
    deserializePartCache (serializePartCache pc) = some pc := by
  obtain ⟨ca, answers⟩ := pc
  cases ca with
  | none =>
    have := deserializePartFields_flatten answers [] none (by simpa using h1) h2
    simpa [serializePartCache, deserializePartCache] using this
  | some a =>
    have := deserializePartFields_flatten answers [] (some (some a)) (by simpa using h1) h2
    simp only [serializePartCache, deserializePartCache, List.cons_append, List.nil_append,
      deserializePartFields, if_pos rfl]
    simpa using this

theorem deserializePartsMap_serialize (parts : List (Int × PartCache)) :
    ∀ acc : List (Int × PartCache),
    (acc.map Prod.fst ++ parts.map Prod.fst).Nodup →
    (∀ kv ∈ parts, (kv.2.answers.map Prod.fst).Nodup) →
    (∀ kv ∈ parts, ∀ av ∈ kv.2.answers, av.1 ≠ "correct_answer") →
    deserializePartsMap (parts.map fun kv => (intKeyString kv.1, serializePartCache kv.2)) acc =
      some (acc ++ parts) := by
  induction parts with
  | nil =>
    intro acc _ _ _
    simp [deserializePartsMap]
  | cons hd tl ih =>
    intro acc h1 h2 h3
    obtain ⟨p, pc⟩ := hd
    have hdisj := (List.nodup_append.mp h1).2.2
    have hknotin : p ∉ acc.map Prod.fst := fun hmem => hdisj hmem (by simp)
    have h1' : ((acc ++ [(p, pc)]).map Prod.fst ++ tl.map Prod.fst).Nodup := by
      simpa [List.append_assoc] using h1
    have h2' : ∀ kv ∈ tl, (kv.2.answers.map Prod.fst).Nodup :=
      fun kv hkv => h2 kv (by simp [hkv])
    have h3' : ∀ kv ∈ tl, ∀ av ∈ kv.2.answers, av.1 ≠ "correct_answer" :=
      fun kv hkv => h3 kv (by simp [hkv])
    simp only [List.map_cons, deserializePartsMap, parseIntKey_intKeyString,
      deserializePartCache_serialize pc (h2 (p, pc) (by simp)) (h3 (p, pc) (by simp)),
      insertA_of_lookupA_none pc (lookupA_eq_none hknotin)]
    rw [ih (acc ++ [(p, pc)]) h1' h2' h3']
    simp

theorem deserializeCache_serializeCache (c : Cache) (h1 : KeysNodup c)
    (h2 : NoReservedAnswerKey c) : deserializeCache (serializeCache c) = some c := by
  obtain ⟨parts⟩ := c
  obtain ⟨hnodup, hanodup⟩ := h1
  simp only [serializeCache, deserializeCache, deserializeCacheFields, if_pos rfl]
  rw [deserializePartsMap_serialize parts [] (by simpa using hnodup) hanodup h2]
  simp [deserializeCacheFields]

/-! Branch equations for `cache_wrapper_step` and facts about
`post_result_and_handle_response`. -/

theorem post_result_ret (pc : PartCache) (r : String) (post : Except Error Unit) (now : Int) :
    (post_result_and_handle_response pc r post now).2 = post := rfl

theorem post_result_answers (pc : PartCache) (r : String) (post : Except Error Unit)
    (now : Int) :
    lookupA r (post_result_and_handle_response pc r post now).1.answers =
      some ⟨now, translateResponse post⟩ := by
  cases post with
  | ok u => cases u; simp [post_result_and_handle_response, lookupA_insertA_self]
  | error e => simp [post_result_and_handle_response, lookupA_insertA_self]

theorem post_result_answers_ne (pc : PartCache) (r : String) (post : Except Error Unit)
    (now : Int) {a : String} (h : a ≠ r) :
    lookupA a (post_result_and_handle_response pc r post now).1.answers =
      lookupA a pc.answers := by
  cases post with
  | ok u => cases u; simp [post_result_and_handle_response, lookupA_insertA_ne _ _ h]
  | error e => simp [post_result_and_handle_response, lookupA_insertA_ne _ _ h]

theorem post_result_correct_answer (pc : PartCache) (r : String) (post : Except Error Unit)
    (now : Int) :
    (post_result_and_handle_response pc r post now).1.correct_answer =
      (match post with
        | .ok () => some r
        | .error _ => pc.correct_answer) := by
  cases post with
  | ok u => cases u; rfl
  | error e => rfl

theorem step_eq_fast (c : Cache) (p : Int) (r : String) (post : Except Error Unit) (now : Int)
    {known : String} (hca : (partOf c p).correct_answer = some known) :
    cache_wrapper_step c p r post now =
      some ({ ret := if r = known then .ok () else .error .Incorrect,
                cache := ⟨insertA p (partOf c p) c.parts⟩, wrote := false, calls := 0 }) := by
  simp only [cache_wrapper_step, hca]
  by_cases h : r = known <;> simp [h]

theorem step_eq_vacant (c : Cache) (p : Int) (r : String) (post : Except Error Unit)
    (now : Int) (hca : (partOf c p).correct_answer = none)
    (hlk : lookupA r (partOf c p).answers = none) :
    cache_wrapper_step c p r post now =
      some ({ ret := post,
                cache := ⟨insertA p (post_result_and_handle_response (partOf c p) r post now).1 c.parts⟩,
                wrote := true, calls := 1 }) := by
  simp only [cache_wrapper_step, hca, hlk, post_result_ret]

theorem step_eq_promote (c : Cache) (p : Int) (r : String) (post : Except Error Unit)
    (now : Int) {e : Response} (hca : (partOf c p).correct_answer = none)
    (hlk : lookupA r (partOf c p).answers = some e) (hresp : e.response = .ok ()) :
    cache_wrapper_step c p r post now =
      some ({ ret := .ok (),
                cache := ⟨insertA p { partOf c p with correct_answer := some r } c.parts⟩,
                wrote := true, calls := 0 }) := by
  simp only [cache_wrapper_step, hca, hlk, hresp]

theorem step_eq_incorrect (c : Cache) (p : Int) (r : String) (post : Except Error Unit)
    (now : Int) {e : Response} (hca : (partOf c p).correct_answer = none)
    (hlk : lookupA r (partOf c p).answers = some e)
    (hresp : e.response = .error .Incorrect) :
    cache_wrapper_step c p r post now =
      some ({ ret := .error .Incorrect, cache := ⟨insertA p (partOf c p) c.parts⟩,
                wrote := false, calls := 0 }) := by
  simp only [cache_wrapper_step, hca, hlk, hresp]

theorem step_eq_ratelimit_pos (c : Cache) (p : Int) (r : String) (post : Except Error Unit)
    (now : Int) {e : Response} {t : String} {rem : Int}
    (hca : (partOf c p).correct_answer = none)
    (hlk : lookupA r (partOf c p).answers = some e)
    (hresp : e.response = .error (.RateLimit t))
    (hgrt : get_remaining_time e.submission_time t now = some (some rem)) :
    cache_wrapper_step c p r post now =
      some ({ ret := .error (.RateLimit (toString rem ++ "s")),
                cache := ⟨insertA p (partOf c p) c.parts⟩, wrote := false, calls := 0 }) := by
  simp only [cache_wrapper_step, hca, hlk, hresp, hgrt]

theorem step_eq_ratelimit_expired (c : Cache) (p : Int) (r : String) (post : Except Error Unit)
    (now : Int) {e : Response} {t : String}
    (hca : (partOf c p).correct_answer = none)
    (hlk : lookupA r (partOf c p).answers = some e)
    (hresp : e.response = .error (.RateLimit t))
    (hgrt : get_remaining_time e.submission_time t now = some none) :
    cache_wrapper_step c p r post now =
      some ({ ret := post,
                cache := ⟨insertA p (post_result_and_handle_response (partOf c p) r post now).1 c.parts⟩,
                wrote := true, calls := 1 }) := by
  simp only [cache_wrapper_step, hca, hlk, hresp, hgrt, post_result_ret]

theorem step_eq_ratelimit_panic (c : Cache) (p : Int) (r : String) (post : Except Error Unit)
    (now : Int) {e : Response} {t : String}
    (hca : (partOf c p).correct_answer = none)
    (hlk : lookupA r (partOf c p).answers = some e)
    (hresp : e.response = .error (.RateLimit t))
    (hgrt : get_remaining_time e.submission_time t now = none) :
    cache_wrapper_step c p r post now = none := by
  simp only [cache_wrapper_step, hca, hlk, hresp, hgrt]

theorem step_eq_other (c : Cache) (p : Int) (r : String) (post : Except Error Unit)
    (now : Int) {e : Response} {e' : ErrorSerializable}
    (hca : (partOf c p).correct_answer = none)
    (hlk : lookupA r (partOf c p).answers = some e)
    (hresp : e.response = .error e') (hother : e'.isOtherFailure = true) :
    cache_wrapper_step c p r post now =
      some ({ ret := post,
                cache := ⟨insertA p (post_result_and_handle_response (partOf c p) r post now).1 c.parts⟩,
                wrote := true, calls := 1 }) := by
  cases e' with
  | Incorrect => simp [ErrorSerializable.isOtherFailure] at hother
  | RateLimit t => simp [ErrorSerializable.isOtherFailure] at hother
  | IOErr => simp only [cache_wrapper_step, hca, hlk, hresp, post_result_ret]
  | UReq => simp only [cache_wrapper_step, hca, hlk, hresp, post_result_ret]
  | Panic => simp only [cache_wrapper_step, hca, hlk, hresp, post_result_ret]

theorem partOf_some {c : Cache} {p : Int} {pc : PartCache}
    (h : lookupA p c.parts = some pc) : partOf c p = pc := by
  simp [partOf, h]

theorem lookupA_eq_some_partOf {c : Cache} {p : Int} {known : String}
    (hca : (partOf c p).correct_answer = some known) :
    lookupA p c.parts = some (partOf c p) := by
  cases h : lookupA p c.parts with
  | none =>
    rw [partOf, h] at hca
    simp at hca
  | some pc => simp [partOf, h]

/-- Truncating division (what the code computes through
`Duration::num_seconds`) and flooring division (what the spec describes)
agree on positivity and, when positive, on the value. -/
theorem tdiv_fdiv_agree (d N : Int) (hN : 0 < N) :
    (0 < Int.tdiv d N ↔ 0 < Int.fdiv d N) ∧
    (0 < Int.tdiv d N → Int.tdiv d N = Int.fdiv d N) := by
  rw [Int.fdiv_eq_ediv d hN.le]
  rcases le_or_lt 0 d with hd | hd
  · rw [Int.tdiv_eq_ediv hd hN.le]
    exact ⟨Iff.rfl, fun _ => rfl⟩
  · have h1 : d / N < 0 := Int.ediv_neg' hd hN
    have h2 : Int.tdiv d N ≤ 0 := by
      have hneg : Int.tdiv (-d) N = -(Int.tdiv d N) := Int.neg_tdiv d N
      have hnn : 0 ≤ Int.tdiv (-d) N := Int.tdiv_nonneg (by omega) hN.le
      omega
    exact ⟨by constructor <;> intro h <;> omega, fun h => by omega⟩

/-! Claim theorems. -/

/-- C1: every call reaching a fresh remote submission — the answer not in the
per-part cache, or its cached rate-limit window expired or descriptor
unparseable (the code's remaining time resolving to `None` without
panicking), or its cached outcome an other-failure kind — invokes the remote
callback exactly once, stores the projected outcome in `answers[answer]` with
a fresh `submission_time`, sets `correct_answer` to the submitted answer
exactly when the callback returned success, and returns the callback's
original result with full error detail, not the lossy projection. -/
theorem fresh_submission_remote_call (c : Cache) (p : Int) (r : String)
    (post : Except Error Unit) (now : Int)
    (hca : (partOf c p).correct_answer = none)
    (hfresh : lookupA r (partOf c p).answers = none ∨
      (∃ e t, lookupA r (partOf c p).answers = some e ∧
        e.response = .error (.RateLimit t) ∧
        get_remaining_time e.submission_time t now = some none) ∨
      (∃ e e', lookupA r (partOf c p).answers = some e ∧ e.response = .error e' ∧
        e'.isOtherFailure = true)) :
    ∃ s, cache_wrapper_step c p r post now = some s ∧
      s.calls = 1 ∧ s.ret = post ∧
      lookupA r (partOf s.cache p).answers = some ⟨now, translateResponse post⟩ ∧
      ((partOf s.cache p).correct_answer = some r ↔ post = .ok ()) := by
  have hstep : cache_wrapper_step c p r post now =
      some ({ ret := post,
                cache := ⟨insertA p (post_result_and_handle_response (partOf c p) r post now).1 c.parts⟩,
                wrote := true, calls := 1 }) := by
    rcases hfresh with h | ⟨e, t, hlk, hresp, hgrt⟩ | ⟨e, e', hlk, hresp, hother⟩
    · exact step_eq_vacant c p r post now hca h
    · exact step_eq_ratelimit_expired c p r post now hca hlk hresp hgrt
    · exact step_eq_other c p r post now hca hlk hresp hother
  refine ⟨_, hstep, rfl, rfl, ?_, ?_⟩
  · rw [partOf_some (lookupA_insertA_self p _ c.parts)]
    exact post_result_answers _ _ _ _
  · rw [partOf_some (lookupA_insertA_self p _ c.parts), post_result_correct_answer]
    cases post with
    | ok u => cases u; simp
    | error e => simp [hca]

theorem fresh_submission_remote_call_witness :
    ((partOf ⟨[]⟩ 1).correct_answer = none ∧
      lookupA "a" (partOf ⟨[]⟩ 1).answers = none) ∧
    (∃ s, cache_wrapper_step ⟨[]⟩ 1 "a" (Except.error (Error.UReq (some 5))) 7 = some s ∧
      s.calls = 1 ∧ s.ret = Except.error (Error.UReq (some 5)) ∧
      lookupA "a" (partOf s.cache 1).answers =
        some ⟨7, translateResponse (Except.error (Error.UReq (some 5)))⟩ ∧
      ((partOf s.cache 1).correct_answer = some "a" ↔
        Except.error (Error.UReq (some 5)) = Except.ok ())) :=
  ⟨⟨rfl, rfl⟩,
    fresh_submission_remote_call ⟨[]⟩ 1 "a" (Except.error (Error.UReq (some 5))) 7 rfl
      (Or.inl rfl)⟩

/-- C2: when the part's `correct_answer` is already `Some(known)`, the call
returns success exactly when the submitted answer equals it and the
`Incorrect` error otherwise, without invoking the remote callback (zero
calls), without touching the file, and without mutating the store. -/
theorem solved_part_fast_path (file : Option Json) (p : Int) (r : String)
    (post : Except Error Unit) (now : Int) {known : String}
    (hca : (partOf (loadCache file) p).correct_answer = some known) :
    cache_wrapper true file p r post now =
      some ((if r = known then Except.ok () else Except.error Error.Incorrect), file, 0) ∧
    ∃ s, cache_wrapper_step (loadCache file) p r post now = some s ∧
      s.cache = loadCache file := by
  have hstep := step_eq_fast (loadCache file) p r post now hca
  have hins : insertA p (partOf (loadCache file) p) (loadCache file).parts =
      (loadCache file).parts := insertA_of_lookupA_eq (lookupA_eq_some_partOf hca)
  refine ⟨?_, ⟨_, hstep, ?_⟩⟩
  · simp [cache_wrapper, hstep]
  · simp [hins]

theorem solved_part_fast_path_witness :
    (partOf (loadCache (some (serializeCache
      ⟨[(1, ⟨some "42", [("42", ⟨0, Except.ok ()⟩)]⟩)]⟩))) 1).correct_answer = some "42" ∧
    cache_wrapper true (some (serializeCache
        ⟨[(1, ⟨some "42", [("42", ⟨0, Except.ok ()⟩)]⟩)]⟩)) 1 "7" (Except.ok ()) 0 =
      some ((if "7" = "42" then Except.ok () else Except.error Error.Incorrect),
        some (serializeCache ⟨[(1, ⟨some "42", [("42", ⟨0, Except.ok ()⟩)]⟩)]⟩), 0) ∧
    (∃ s, cache_wrapper_step (loadCache (some (serializeCache
        ⟨[(1, ⟨some "42", [("42", ⟨0, Except.ok ()⟩)]⟩)]⟩))) 1 "7" (Except.ok ()) 0 =
        some s ∧
      s.cache =
        loadCache (some (serializeCache
          ⟨[(1, ⟨some "42", [("42", ⟨0, Except.ok ()⟩)]⟩)]⟩))) := by
  have h := @solved_part_fast_path
    (some (serializeCache ⟨[(1, ⟨some "42", [("42", ⟨0, Except.ok ()⟩)]⟩)]⟩))
    1 "7" (Except.ok ()) 0 "42" (by decide)
  exact ⟨by decide, h.1, h.2⟩

/-- Characterization of `get_remaining_time`: the code's truncating
computation agrees with floored arithmetic guarded by chrono's two `Duration`
bounds — the `Duration::seconds` panic and the `checked_sub` overflow. -/
theorem get_remaining_time_floor_spec (st : Int) (t : String) (now : Int) :
    get_remaining_time st t now =
      (match parse_rate_limit t with
        | none => some none
        | some secs =>
          if secs * NANOS_PER_SEC < -DURATION_MAX_NANOS ∨
              DURATION_MAX_NANOS < secs * NANOS_PER_SEC then none
          else if secs * NANOS_PER_SEC - (now - st) < -DURATION_MAX_NANOS ∨
              DURATION_MAX_NANOS < secs * NANOS_PER_SEC - (now - st) then some none
          else
            let rem := Int.fdiv (secs * NANOS_PER_SEC - (now - st)) NANOS_PER_SEC
            if 0 < rem then some (some rem) else some none) := by
  cases hp : parse_rate_limit t with
  | none => simp [get_remaining_time, hp]
  | some secs =>
    simp only [get_remaining_time, hp]
    by_cases hb1 : -DURATION_MAX_NANOS ≤ secs * NANOS_PER_SEC ∧
        secs * NANOS_PER_SEC ≤ DURATION_MAX_NANOS
    · have hb1' : ¬(secs * NANOS_PER_SEC < -DURATION_MAX_NANOS ∨
          DURATION_MAX_NANOS < secs * NANOS_PER_SEC) := by
        push_neg
        exact hb1
      simp only [duration_seconds, if_pos hb1, if_neg hb1']
      by_cases hb2 : -DURATION_MAX_NANOS ≤ secs * NANOS_PER_SEC - (now - st) ∧
          secs * NANOS_PER_SEC - (now - st) ≤ DURATION_MAX_NANOS
      · have hb2' : ¬(secs * NANOS_PER_SEC - (now - st) < -DURATION_MAX_NANOS ∨
            DURATION_MAX_NANOS < secs * NANOS_PER_SEC - (now - st)) := by
          push_neg
          exact hb2
        simp only [duration_checked_sub, if_pos hb2, if_neg hb2']
        obtain ⟨hiff, heq⟩ := tdiv_fdiv_agree (secs * NANOS_PER_SEC - (now - st))
          NANOS_PER_SEC (by norm_num [NANOS_PER_SEC])
        by_cases hpos : 0 < Int.tdiv (secs * NANOS_PER_SEC - (now - st)) NANOS_PER_SEC
        · rw [if_pos hpos, if_pos (hiff.mp hpos), heq hpos]
        · rw [if_neg hpos, if_neg (fun h => hpos (hiff.mpr h))]
      · have hb2' : secs * NANOS_PER_SEC - (now - st) < -DURATION_MAX_NANOS ∨
            DURATION_MAX_NANOS < secs * NANOS_PER_SEC - (now - st) := by
          rcases not_and_or.mp hb2 with h | h
          · exact Or.inl (not_le.mp h)
          · exact Or.inr (not_le.mp h)
        simp only [duration_checked_sub, if_neg hb2, if_pos hb2']
    · have hb1' : secs * NANOS_PER_SEC < -DURATION_MAX_NANOS ∨
          DURATION_MAX_NANOS < secs * NANOS_PER_SEC := by
        rcases not_and_or.mp hb1 with h | h
        · exact Or.inl (not_le.mp h)
        · exact Or.inr (not_le.mp h)
      simp only [duration_seconds, if_neg hb1, if_pos hb1']

/-- C3, counterexample to the claim as stated: at the cached descriptor
`"9223372036854775s"` (a valid `"<integer>s"` wait, at the top of chrono's
`Duration` range) with a recorded `submission_time` about 31.7 years in the
future of `now`, the remaining time per the claim's arithmetic — the parsed
wait length minus the elapsed wall-clock time, floored to whole seconds — is
strictly positive, yet the call does not return a fresh `RateLimited` error:
the checked subtraction inside `get_remaining_time` overflows the `Duration`
bound, the window is treated as expired, and the remote callback is
invoked. -/
theorem rate_limited_window_counterexample :
    (0 : Int) <
      Int.fdiv ((9223372036854775 : Int) * NANOS_PER_SEC -
        ((0 : Int) - 1000000000000000000)) NANOS_PER_SEC ∧
    parse_rate_limit "9223372036854775s" = some 9223372036854775 ∧
    cache_wrapper_step
        ⟨[(1, ⟨none, [("w", ⟨1000000000000000000,
          Except.error (ErrorSerializable.RateLimit "9223372036854775s")⟩)]⟩)]⟩
        1 "w" (Except.ok ()) 0 =
      some ({ ret := Except.ok (),
                cache := ⟨[(1, ⟨some "w", [("w", ⟨0, Except.ok ()⟩)]⟩)]⟩,
                wrote := true, calls := 1 }) :=
  ⟨by decide, by decide, by decide⟩

/-- C3, amended: on a cached `RateLimited(wait)` outcome, if the remaining
time (the parsed wait length minus the elapsed wall-clock time since the
recorded `submission_time`, floored to whole seconds) is strictly positive
and both chrono `Duration` operations stay in bounds, the call returns a
fresh `RateLimited` error carrying that recomputed number of seconds and does
not invoke the callback; if the remaining time is zero or negative, or the
descriptor does not parse as `"<integer>s"`, or the subtraction overflows the
`Duration` bound of ±`i64::MAX` milliseconds, the window counts as expired
and the callback is invoked; and if the parsed wait itself exceeds that bound
the call panics in `Duration::seconds`, invoking nothing. The second conjunct
equates the code's remaining-time computation with exactly this guarded
floored arithmetic. -/
theorem rate_limited_window (c : Cache) (p : Int) (r : String) (post : Except Error Unit)
    (now st : Int) (t : String)
    (hca : (partOf c p).correct_answer = none)
    (hlk : lookupA r (partOf c p).answers = some ⟨st, .error (.RateLimit t)⟩) :
    cache_wrapper_step c p r post now =
      (match get_remaining_time st t now with
        | some (some rem) =>
          some ({ ret := .error (.RateLimit (toString rem ++ "s")),
                    cache := ⟨insertA p (partOf c p) c.parts⟩, wrote := false, calls := 0 })
        | some none =>
          some ({ ret := post,
                    cache :=
                      ⟨insertA p (post_result_and_handle_response (partOf c p) r post now).1 c.parts⟩,
                    wrote := true, calls := 1 })
        | none => none) ∧
    get_remaining_time st t now =
      (match parse_rate_limit t with
        | none => some none
        | some secs =>
          if secs * NANOS_PER_SEC < -DURATION_MAX_NANOS ∨
              DURATION_MAX_NANOS < secs * NANOS_PER_SEC then none
          else if secs * NANOS_PER_SEC - (now - st) < -DURATION_MAX_NANOS ∨
              DURATION_MAX_NANOS < secs * NANOS_PER_SEC - (now - st) then some none
          else
            let rem := Int.fdiv (secs * NANOS_PER_SEC - (now - st)) NANOS_PER_SEC
            if 0 < rem then some (some rem) else some none) := by
  refine ⟨?_, get_remaining_time_floor_spec st t now⟩
  cases hgrt : get_remaining_time st t now with
  | none => exact step_eq_ratelimit_panic c p r post now hca hlk rfl hgrt
  | some o =>
    cases o with
    | some rem => exact step_eq_ratelimit_pos c p r post now hca hlk rfl hgrt
    | none => exact step_eq_ratelimit_expired c p r post now hca hlk rfl hgrt

theorem rate_limited_window_witness :
    ((partOf ⟨[(1, ⟨none, [("w", ⟨0, Except.error (ErrorSerializable.RateLimit "30s")⟩)]⟩)]⟩
        1).correct_answer = none ∧
      lookupA "w" (partOf ⟨[(1, ⟨none,
        [("w", ⟨0, Except.error (ErrorSerializable.RateLimit "30s")⟩)]⟩)]⟩ 1).answers =
        some ⟨0, .error (.RateLimit "30s")⟩) ∧
    (cache_wrapper_step ⟨[(1, ⟨none,
        [("w", ⟨0, Except.error (ErrorSerializable.RateLimit "30s")⟩)]⟩)]⟩
        1 "w" (Except.error Error.Incorrect) 10000000000 =
      (match get_remaining_time 0 "30s" 10000000000 with
        | some (some rem) =>
          some ({ ret := .error (.RateLimit (toString rem ++ "s")),
                    cache := ⟨insertA 1 (partOf ⟨[(1, ⟨none,
                      [("w", ⟨0, Except.error (ErrorSerializable.RateLimit "30s")⟩)]⟩)]⟩ 1)
                      (⟨[(1, ⟨none, [("w", ⟨0, Except.error
                        (ErrorSerializable.RateLimit "30s")⟩)]⟩)]⟩ : Cache).parts⟩,
                    wrote := false, calls := 0 })
        | some none =>
          some ({ ret := Except.error Error.Incorrect,
                    cache := ⟨insertA 1 (post_result_and_handle_response
                      (partOf ⟨[(1, ⟨none,
                        [("w", ⟨0, Except.error (ErrorSerializable.RateLimit "30s")⟩)]⟩)]⟩ 1)
                      "w" (Except.error Error.Incorrect) 10000000000).1
                      (⟨[(1, ⟨none, [("w", ⟨0, Except.error
                        (ErrorSerializable.RateLimit "30s")⟩)]⟩)]⟩ : Cache).parts⟩,
                    wrote := true, calls := 1 })
        | none => none)) ∧
    get_remaining_time 0 "30s" 10000000000 =
      (match parse_rate_limit "30s" with
        | none => some none
        | some secs =>
          if secs * NANOS_PER_SEC < -DURATION_MAX_NANOS ∨
              DURATION_MAX_NANOS < secs * NANOS_PER_SEC then none
          else if secs * NANOS_PER_SEC - (10000000000 - 0) < -DURATION_MAX_NANOS ∨
              DURATION_MAX_NANOS < secs * NANOS_PER_SEC - (10000000000 - 0) then some none
          else
            let rem := Int.fdiv (secs * NANOS_PER_SEC - (10000000000 - 0)) NANOS_PER_SEC
            if 0 < rem then some (some rem) else some none) := by
  have h := rate_limited_window
    ⟨[(1, ⟨none, [("w", ⟨0, Except.error (ErrorSerializable.RateLimit "30s")⟩)]⟩)]⟩
    1 "w" (Except.error Error.Incorrect) 10000000000 0 "30s" (by decide) (by decide)
  exact ⟨⟨by decide, by decide⟩, h.1, h.2⟩

/-- C4: a cached `Incorrect` outcome for the submitted answer makes the call
return the `Incorrect` error without invoking the remote callback, for every
current time and recorded submission time (permanence regardless of elapsed
time), and without reaching the file write. -/
theorem incorrect_is_permanent (c : Cache) (p : Int) (r : String) (post : Except Error Unit)
    (now st : Int)
    (hca : (partOf c p).correct_answer = none)
    (hlk : lookupA r (partOf c p).answers = some ⟨st, .error .Incorrect⟩) :
    cache_wrapper_step c p r post now =
      some ({ ret := .error .Incorrect, cache := ⟨insertA p (partOf c p) c.parts⟩,
                wrote := false, calls := 0 }) :=
  step_eq_incorrect c p r post now hca hlk rfl

theorem incorrect_is_permanent_witness :
    ((partOf ⟨[(1, ⟨none, [("b", ⟨3, Except.error ErrorSerializable.Incorrect⟩)]⟩)]⟩
        1).correct_answer = none ∧
      lookupA "b" (partOf ⟨[(1, ⟨none,
        [("b", ⟨3, Except.error ErrorSerializable.Incorrect⟩)]⟩)]⟩ 1).answers =
        some ⟨3, .error .Incorrect⟩) ∧
    cache_wrapper_step ⟨[(1, ⟨none,
        [("b", ⟨3, Except.error ErrorSerializable.Incorrect⟩)]⟩)]⟩
        1 "b" (Except.ok ()) 999999999999999999 =
      some ({ ret := .error .Incorrect,
                cache := ⟨insertA 1 (partOf ⟨[(1, ⟨none,
                  [("b", ⟨3, Except.error ErrorSerializable.Incorrect⟩)]⟩)]⟩ 1)
                  (⟨[(1, ⟨none, [("b", ⟨3, Except.error ErrorSerializable.Incorrect⟩)]⟩)]⟩ :
                    Cache).parts⟩,
                wrote := false, calls := 0 }) :=
  ⟨⟨by decide, by decide⟩,
    incorrect_is_permanent
      ⟨[(1, ⟨none, [("b", ⟨3, Except.error ErrorSerializable.Incorrect⟩)]⟩)]⟩
      1 "b" (Except.ok ()) 999999999999999999 3 (by decide) (by decide)⟩

/-- C5: when `correct_answer` is `None` but the cached outcome for the
submitted answer is `Correct` (`Ok`), the call promotes that answer to the
part's `correct_answer`, returns success, and does not invoke the remote
callback. -/
theorem cached_correct_promotion (c : Cache) (p : Int) (r : String) (post : Except Error Unit)
    (now : Int) {e : Response}
    (hca : (partOf c p).correct_answer = none)
    (hlk : lookupA r (partOf c p).answers = some e)
    (hresp : e.response = .ok ()) :
    ∃ s, cache_wrapper_step c p r post now = some s ∧
      s.ret = .ok () ∧ s.calls = 0 ∧
      partOf s.cache p = { partOf c p with correct_answer := some r } := by
  refine ⟨_, step_eq_promote c p r post now hca hlk hresp, rfl, rfl, ?_⟩
  exact partOf_some (lookupA_insertA_self p _ c.parts)

theorem cached_correct_promotion_witness :
    ((partOf ⟨[(2, ⟨none, [("x", ⟨0, Except.ok ()⟩)]⟩)]⟩ 2).correct_answer = none ∧
      lookupA "x" (partOf ⟨[(2, ⟨none, [("x", ⟨0, Except.ok ()⟩)]⟩)]⟩ 2).answers =
        some (⟨0, Except.ok ()⟩ : Response) ∧
      (⟨0, Except.ok ()⟩ : Response).response = .ok ()) ∧
    (∃ s, cache_wrapper_step ⟨[(2, ⟨none, [("x", ⟨0, Except.ok ()⟩)]⟩)]⟩ 2 "x"
        (Except.error Error.Incorrect) 5 = some s ∧
      s.ret = .ok () ∧ s.calls = 0 ∧
      partOf s.cache 2 =
        { partOf ⟨[(2, ⟨none, [("x", ⟨0, Except.ok ()⟩)]⟩)]⟩ 2 with
          correct_answer := some "x" }) :=
  ⟨⟨by decide, by decide, rfl⟩,
    @cached_correct_promotion ⟨[(2, ⟨none, [("x", ⟨0, Except.ok ()⟩)]⟩)]⟩ 2 "x"
      (Except.error Error.Incorrect) 5 ⟨0, Except.ok ()⟩ (by decide) (by decide) rfl⟩

theorem post_result_partinv (pc : PartCache) (r : String) (post : Except Error Unit)
    (now : Int) (hca : pc.correct_answer = none) :
    PartInv (post_result_and_handle_response pc r post now).1 := by
  cases post with
  | ok u =>
    cases u
    simp [post_result_and_handle_response, PartInv, lookupA_insertA_self, translateResponse]
  | error e => simp [post_result_and_handle_response, PartInv, hca]

theorem post_result_preserves (pc : PartCache) (r : String) (post : Except Error Unit)
    (now : Int) : ∀ a, (lookupA a pc.answers).isSome = true →
      (lookupA a (post_result_and_handle_response pc r post now).1.answers).isSome = true := by
  intro a h
  by_cases har : a = r
  · subst har
    rw [post_result_answers]
    rfl
  · rw [post_result_answers_ne _ _ _ _ har]
    exact h

theorem promote_partinv {pc : PartCache} {r : String} {e : Response}
    (hlk : lookupA r pc.answers = some e) (hresp : e.response = .ok ()) :
    PartInv { pc with correct_answer := some r } := by
  simp [PartInv, hlk, hresp]

theorem partOf_default (c : Cache) (p : Int) (hinv : CacheInv c) : PartInv (partOf c p) := by
  cases hl : lookupA p c.parts with
  | none => simp [partOf, hl, PartInv]
  | some pc =>
    rw [partOf_some hl]
    exact hinv (p, pc) (lookupA_mem hl)

theorem step_cache_decomp (c : Cache) (p : Int) (r : String) (post : Except Error Unit)
    (now : Int) (hinv : CacheInv c) (s : StepResult)
    (hs : cache_wrapper_step c p r post now = some s) :
    ∃ pc', s.cache = ⟨insertA p pc' c.parts⟩ ∧
      PartInv pc' ∧
      ∀ a, (lookupA a (partOf c p).answers).isSome = true →
        (lookupA a pc'.answers).isSome = true := by
  have hpinv : PartInv (partOf c p) := partOf_default c p hinv
  cases hca : (partOf c p).correct_answer with
  | some known =>
    rw [step_eq_fast c p r post now hca] at hs
    injection hs with hs
    subst hs
    exact ⟨partOf c p, rfl, hpinv, fun a h => h⟩
  | none =>
    cases hlk : lookupA r (partOf c p).answers with
    | none =>
      rw [step_eq_vacant c p r post now hca hlk] at hs
      injection hs with hs
      subst hs
      exact ⟨(post_result_and_handle_response (partOf c p) r post now).1, rfl,
        post_result_partinv _ _ _ _ hca, post_result_preserves _ _ _ _⟩
    | some e =>
      cases hresp : e.response with
      | ok u =>
        cases u
        rw [step_eq_promote c p r post now hca hlk hresp] at hs
        injection hs with hs
        subst hs
        exact ⟨{ partOf c p with correct_answer := some r }, rfl,
          promote_partinv hlk hresp, fun a h => h⟩
      | error e' =>
        cases e' with
        | Incorrect =>
          rw [step_eq_incorrect c p r post now hca hlk hresp] at hs
          injection hs with hs
          subst hs
          exact ⟨partOf c p, rfl, hpinv, fun a h => h⟩
        | RateLimit t =>
          cases hgrt : get_remaining_time e.submission_time t now with
          | none =>
            rw [step_eq_ratelimit_panic c p r post now hca hlk hresp hgrt] at hs
            exact absurd hs (by simp)
          | some o =>
            cases o with
            | some rem =>
              rw [step_eq_ratelimit_pos c p r post now hca hlk hresp hgrt] at hs
              injection hs with hs
              subst hs
              exact ⟨partOf c p, rfl, hpinv, fun a h => h⟩
            | none =>
              rw [step_eq_ratelimit_expired c p r post now hca hlk hresp hgrt] at hs
              injection hs with hs
              subst hs
              exact ⟨(post_result_and_handle_response (partOf c p) r post now).1, rfl,
                post_result_partinv _ _ _ _ hca, post_result_preserves _ _ _ _⟩
        | IOErr =>
          rw [step_eq_other c p r post now hca hlk hresp rfl] at hs
          injection hs with hs
          subst hs
          exact ⟨(post_result_and_handle_response (partOf c p) r post now).1, rfl,
            post_result_partinv _ _ _ _ hca, post_result_preserves _ _ _ _⟩
        | UReq =>
          rw [step_eq_other c p r post now hca hlk hresp rfl] at hs
          injection hs with hs
          subst hs
          exact ⟨(post_result_and_handle_response (partOf c p) r post now).1, rfl,
            post_result_partinv _ _ _ _ hca, post_result_preserves _ _ _ _⟩
        | Panic =>
          rw [step_eq_other c p r post now hca hlk hresp rfl] at hs
          injection hs with hs
          subst hs
          exact ⟨(post_result_and_handle_response (partOf c p) r post now).1, rfl,
            post_result_partinv _ _ _ _ hca, post_result_preserves _ _ _ _⟩

/-- C6: every call preserves the store invariant — a promoted `correct_answer`
is always backed by an `answers` entry with outcome `Correct`, given that this
held on entry — and never loses an entry: every part key keeps a record and
every previously present answer key still resolves (overwritten perhaps, never
removed). Quantifying over the completed step result covers every run that
persists anything; a panicking run stores and writes nothing. -/
theorem store_invariant_preserved (c : Cache) (p : Int) (r : String)
    (post : Except Error Unit) (now : Int) (s : StepResult) (hinv : CacheInv c)
    (hs : cache_wrapper_step c p r post now = some s) :
    CacheInv s.cache ∧ noEntryLoss c s.cache := by
  obtain ⟨pc', hcache, hpinv', hans⟩ := step_cache_decomp c p r post now hinv s hs
  constructor
  · intro kv hkv
    rw [hcache] at hkv
    rcases mem_insertA hkv with h | h
    · rw [h]
      exact hpinv'
    · exact hinv kv h
  · rw [hcache]
    constructor
    · intro q hq
      by_cases hqp : q = p
      · subst hqp
        simp [lookupA_insertA_self]
      · rw [lookupA_insertA_ne _ _ hqp]
        exact lookupA_isSome_of_mem_keys hq
    · intro q hq a ha
      by_cases hqp : q = p
      · subst hqp
        rw [partOf_some (lookupA_insertA_self q pc' c.parts)]
        exact hans a (lookupA_isSome_of_mem_keys ha)
      · have heq : partOf ⟨insertA p pc' c.parts⟩ q = partOf c q := by
          simp [partOf, lookupA_insertA_ne _ _ hqp]
        rw [heq]
        exact lookupA_isSome_of_mem_keys ha

theorem store_invariant_preserved_witness :
    (CacheInv ⟨[(1, ⟨some "x", [("x", ⟨0, Except.ok ()⟩)]⟩)]⟩ ∧
      cache_wrapper_step ⟨[(1, ⟨some "x", [("x", ⟨0, Except.ok ()⟩)]⟩)]⟩ 1 "y"
        (Except.error Error.Incorrect) 2 =
        some ({ ret := Except.error Error.Incorrect,
                  cache := ⟨[(1, ⟨some "x", [("x", ⟨0, Except.ok ()⟩)]⟩)]⟩,
                  wrote := false, calls := 0 })) ∧
    (CacheInv ⟨[(1, ⟨some "x", [("x", ⟨0, Except.ok ()⟩)]⟩)]⟩ ∧
      noEntryLoss ⟨[(1, ⟨some "x", [("x", ⟨0, Except.ok ()⟩)]⟩)]⟩
        ⟨[(1, ⟨some "x", [("x", ⟨0, Except.ok ()⟩)]⟩)]⟩) :=
  ⟨⟨by decide, by decide⟩,
    store_invariant_preserved ⟨[(1, ⟨some "x", [("x", ⟨0, Except.ok ()⟩)]⟩)]⟩ 1 "y"
      (Except.error Error.Incorrect) 2
      ({ ret := Except.error Error.Incorrect,
         cache := ⟨[(1, ⟨some "x", [("x", ⟨0, Except.ok ()⟩)]⟩)]⟩,
         wrote := false, calls := 0 })
      (by decide) (by decide)⟩

/-- C7: when no cache path is configured, the call is a pure pass-through: it
invokes the remote callback exactly once, returns its result unchanged, and
leaves the file state untouched (no file created, read, or modified). -/
theorem no_cache_path_passthrough (file : Option Json) (p : Int) (r : String)
    (post : Except Error Unit) (now : Int) :
    cache_wrapper false file p r post now = some (post, file, 1) := rfl

/-- C8, counterexample to the claim as stated: with an unparseable file and
the submitted answer string `"correct_answer"`, the first call does invoke
the callback and overwrite the file, but the written serialization collides
with the serde-flattened `correct_answer` field and fails to deserialize —
the overwritten file is not a valid serialized store. -/
theorem corrupt_store_overwrite_counterexample :
    cache_wrapper true (some (Json.str "garbage")) 1 "correct_answer"
        (Except.error Error.Incorrect) 0 =
      some (Except.error Error.Incorrect,
        some (serializeCache ⟨[(1, ⟨none,
          [("correct_answer", ⟨0, Except.error ErrorSerializable.Incorrect⟩)]⟩)]⟩), 1) ∧
    deserializeCache (serializeCache ⟨[(1, ⟨none,
      [("correct_answer", ⟨0, Except.error ErrorSerializable.Incorrect⟩)]⟩)]⟩) = none :=
  ⟨rfl, rfl⟩

/-- C8, amended: for every cache path whose file is missing, unreadable or
unparseable, loading yields the empty default store and propagates no error;
provided the submitted answer is not the reserved field name
`"correct_answer"`, the first call behaves exactly as with an empty store —
it invokes the remote callback once for the new answer and returns its
result — and afterwards overwrites the file with a valid serialized store
(one that deserializes back to the updated store). -/
theorem corrupt_store_resilience_amended (file : Option Json) (p : Int) (r : String)
    (post : Except Error Unit) (now : Int)
    (hbad : file.bind deserializeCache = none)
    (hr : r ≠ "correct_answer") :
    cache_wrapper true file p r post now = cache_wrapper true none p r post now ∧
    ∃ s, cache_wrapper_step ⟨[]⟩ p r post now = some s ∧
      cache_wrapper true file p r post now =
        some (post, some (serializeCache s.cache), 1) ∧
      deserializeCache (serializeCache s.cache) = some s.cache := by
  have hstep := step_eq_vacant ⟨[]⟩ p r post now rfl rfl
  have hans : (post_result_and_handle_response ⟨none, []⟩ r post now).1.answers =
      [(r, ⟨now, translateResponse post⟩)] := by
    cases post with
    | ok u => cases u; rfl
    | error e => rfl
  have hkn : KeysNodup ⟨[(p, (post_result_and_handle_response ⟨none, []⟩ r post now).1)]⟩ := by
    constructor
    · simp
    · intro kv hkv
      simp at hkv
      rw [hkv, hans]
      simp
  have hnr : NoReservedAnswerKey
      ⟨[(p, (post_result_and_handle_response ⟨none, []⟩ r post now).1)]⟩ := by
    intro kv hkv av hav
    simp at hkv
    rw [hkv, hans] at hav
    simp at hav
    rw [hav]
    exact hr
  refine ⟨?_, ⟨_, hstep, ?_, ?_⟩⟩
  · simp [cache_wrapper, loadCache, hbad, hstep]
  · simp [cache_wrapper, loadCache, hbad, hstep]
  · show deserializeCache (serializeCache
        ⟨[(p, (post_result_and_handle_response ⟨none, []⟩ r post now).1)]⟩) =
      some ⟨[(p, (post_result_and_handle_response ⟨none, []⟩ r post now).1)]⟩
    exact deserializeCache_serializeCache _ hkn hnr

theorem corrupt_store_resilience_amended_witness :
    ((some (Json.str "garbage")).bind deserializeCache = none ∧ "a" ≠ "correct_answer") ∧
    (cache_wrapper true (some (Json.str "garbage")) 1 "a" (Except.ok ()) 3 =
        cache_wrapper true none 1 "a" (Except.ok ()) 3 ∧
      ∃ s, cache_wrapper_step ⟨[]⟩ 1 "a" (Except.ok ()) 3 = some s ∧
        cache_wrapper true (some (Json.str "garbage")) 1 "a" (Except.ok ()) 3 =
          some (Except.ok (), some (serializeCache s.cache), 1) ∧
        deserializeCache (serializeCache s.cache) = some s.cache) :=
  ⟨⟨rfl, by decide⟩,
    corrupt_store_resilience_amended (some (Json.str "garbage")) 1 "a" (Except.ok ()) 3
      rfl (by decide)⟩

/-- C9, counterexample to the claim as stated: serializing a store whose
`answers` map contains the answer string `"correct_answer"` and deserializing
the result does not yield the store back — the serde-flattened answer key
collides with the `correct_answer` field and deserialization fails. -/
theorem serialization_roundtrip_counterexample :
    deserializeCache (serializeCache ⟨[(1, ⟨none,
      [("correct_answer", ⟨0, Except.error ErrorSerializable.UReq⟩)]⟩)]⟩) = none :=
  rfl

/-- C9, amended: for every store value whose maps have unique keys (the
`HashMap` representation invariant) and in which no answer string equals the
reserved field name `"correct_answer"`, serializing to the persisted format
and deserializing yields an equal store, preserving every part identifier,
the optional `correct_answer`, and every answer entry with its
`submission_time` and outcome. -/
theorem serialization_roundtrip_amended (c : Cache) (h1 : KeysNodup c)
    (h2 : NoReservedAnswerKey c) :
    deserializeCache (serializeCache c) = some c :=
  deserializeCache_serializeCache c h1 h2

theorem serialization_roundtrip_amended_witness :
    (KeysNodup ⟨[(1, ⟨some "x", [("x", ⟨5, Except.ok ()⟩),
        ("y", ⟨3, Except.error (ErrorSerializable.RateLimit "30s")⟩)]⟩),
      (-2, ⟨none, [("z", ⟨1, Except.error ErrorSerializable.Panic⟩)]⟩)]⟩ ∧
      NoReservedAnswerKey ⟨[(1, ⟨some "x", [("x", ⟨5, Except.ok ()⟩),
        ("y", ⟨3, Except.error (ErrorSerializable.RateLimit "30s")⟩)]⟩),
      (-2, ⟨none, [("z", ⟨1, Except.error ErrorSerializable.Panic⟩)]⟩)]⟩) ∧
    deserializeCache (serializeCache ⟨[(1, ⟨some "x", [("x", ⟨5, Except.ok ()⟩),
        ("y", ⟨3, Except.error (ErrorSerializable.RateLimit "30s")⟩)]⟩),
      (-2, ⟨none, [("z", ⟨1, Except.error ErrorSerializable.Panic⟩)]⟩)]⟩) =
      some ⟨[(1, ⟨some "x", [("x", ⟨5, Except.ok ()⟩),
        ("y", ⟨3, Except.error (ErrorSerializable.RateLimit "30s")⟩)]⟩),
      (-2, ⟨none, [("z", ⟨1, Except.error ErrorSerializable.Panic⟩)]⟩)]⟩ :=
  ⟨⟨by decide, by decide⟩,
    serialization_roundtrip_amended ⟨[(1, ⟨some "x", [("x", ⟨5, Except.ok ()⟩),
        ("y", ⟨3, Except.error (ErrorSerializable.RateLimit "30s")⟩)]⟩),
      (-2, ⟨none, [("z", ⟨1, Except.error ErrorSerializable.Panic⟩)]⟩)]⟩
      (by decide) (by decide)⟩

/-- C10: a call whose decision comes from the cache without invoking the
remote callback — a `correct_answer` fast-path match or mismatch, a cached
`Incorrect` outcome, or a cached `RateLimited` outcome with positive
remaining time — performs no write to the cache file: the contents are
unchanged and no file is created when absent. -/
theorem cached_decision_no_write (file : Option Json) (p : Int) (r : String)
    (post : Except Error Unit) (now : Int)
    (h : (∃ known, (partOf (loadCache file) p).correct_answer = some known) ∨
      ((partOf (loadCache file) p).correct_answer = none ∧
        ∃ st, lookupA r (partOf (loadCache file) p).answers =
          some ⟨st, .error .Incorrect⟩) ∨
      ((partOf (loadCache file) p).correct_answer = none ∧
        ∃ st t rem, lookupA r (partOf (loadCache file) p).answers =
          some ⟨st, .error (.RateLimit t)⟩ ∧
          get_remaining_time st t now = some (some rem))) :
    ∃ ret, cache_wrapper true file p r post now = some (ret, file, 0) := by
  have hwf : ∃ s, cache_wrapper_step (loadCache file) p r post now = some s ∧
      s.wrote = false ∧ s.calls = 0 := by
    rcases h with ⟨known, hca⟩ | ⟨hca, st, hlk⟩ | ⟨hca, st, t, rem, hlk, hgrt⟩
    · exact ⟨_, step_eq_fast _ _ _ _ _ hca, rfl, rfl⟩
    · exact ⟨_, step_eq_incorrect _ _ _ _ _ hca hlk rfl, rfl, rfl⟩
    · exact ⟨_, step_eq_ratelimit_pos _ _ _ _ _ hca hlk rfl hgrt, rfl, rfl⟩
  obtain ⟨s, hs, hw, hc⟩ := hwf
  exact ⟨s.ret, by simp [cache_wrapper, hs, hw, hc]⟩

theorem cached_decision_no_write_witness :
    (∃ known, (partOf (loadCache (some (serializeCache
        ⟨[(1, ⟨some "42", [("42", ⟨0, Except.ok ()⟩)]⟩)]⟩))) 1).correct_answer =
      some known) ∧
    (∃ ret, cache_wrapper true (some (serializeCache
        ⟨[(1, ⟨some "42", [("42", ⟨0, Except.ok ()⟩)]⟩)]⟩)) 1 "banana"
        (Except.ok ()) 0 =
      some (ret, some (serializeCache ⟨[(1, ⟨some "42", [("42", ⟨0, Except.ok ()⟩)]⟩)]⟩),
        0)) :=
  ⟨⟨"42", by decide⟩,
    cached_decision_no_write (some (serializeCache
        ⟨[(1, ⟨some "42", [("42", ⟨0, Except.ok ()⟩)]⟩)]⟩)) 1 "banana" (Except.ok ()) 0
      (Or.inl ⟨"42", by decide⟩)⟩

end AocDriver
